import Mathlib

/-!
Shallow embedding of the IncludeOS HTTP/1.x message model (header field
store, start-line matchers, message/request/response composition) used to
check the natural-language specification against the code.

Conventions of the embedding:

* Characters are bytes, modelled as `Nat` values.  The C++ code walks a
  `std::string` keeping `int character = *iterator`; on the x86 targets of
  this code base `char` is signed, so the byte 0xFF read through a signed
  `char` compares equal to `std::char_traits<char>::eof()` (-1).  We model
  this by treating the byte value 255 as the `stop_char` in every
  comparison against EOF.  Dereferencing the end iterator of a
  `std::string` buffer yields the NUL terminator in practice; we model the
  current character as `headD rest 0`, which agrees with that behaviour.
* `isspace`/`iscntrl`/`tolower` are the C-locale ASCII classifiers; for
  bytes 128..254 (negative `char` values other than EOF) the glibc ctype
  tables used by the code return false, which the model mirrors.
* Loops that do not structurally descend are written with an explicit
  fuel argument; every call site passes `length + 1`, which is always
  sufficient because each loop iteration consumes at least one byte of the
  input, so the fuel-exhausted branch is unreachable from the entry
  points.  Keeping the recursion structural lets the kernel evaluate the
  definitions on concrete inputs.
-/

/-- C-locale isspace on a byte: space, TAB, LF, VT, FF, CR. -/
def isspaceB (c : Nat) : Bool := c == 32 || (9 ≤ c && c ≤ 13)

/-- C-locale iscntrl on a byte: 0..31 and 127. -/
def iscntrlB (c : Nat) : Bool := c < 32 || c == 127

/-- The byte that reads back as char_traits<char>::eof() through the
signed char of the x86 target (0xFF becomes -1). -/
def eofByte : Nat := 255

/-- ASCII tolower on a byte, as used by string_to_lower_case. -/
def tolowerB (c : Nat) : Nat := if 65 ≤ c ∧ c ≤ 90 then c + 32 else c

/-- string_to_lower_case from header.hpp: ASCII-lowercase every byte. -/
def string_to_lower_case (s : List Nat) : List Nat := s.map tolowerB

/-- Byte string literal helper: a Lean string as its list of byte values. -/
def bytes (s : String) : List Nat := s.toList.map Char.toNat

/-- A header field: an ordered (name, value) pair of byte strings. -/
abbrev HField := List Nat × List Nat

/-- std::find_if over the field sequence: the first field whose
lower-cased name equals the lower-cased probe. -/
def findField : List HField → List Nat → Option HField
  | [], _ => none
  | f :: fs, n =>
    if string_to_lower_case f.1 == string_to_lower_case n then some f
    else findField fs n

/-- Erasing the first field whose lower-cased name matches, which is what
`fields_.erase(find(field))` does (`find` returns the first match). -/
def eraseFirst : List HField → List Nat → List HField
  | [], _ => []
  | f :: fs, n =>
    if string_to_lower_case f.1 == string_to_lower_case n then fs
    else f :: eraseFirst fs n

/-- Number of fields whose name matches case-insensitively. -/
def countMatches (fs : List HField) (n : List Nat) : Nat :=
  (fs.filter (fun f => string_to_lower_case f.1 == string_to_lower_case n)).length

/- ----------------------------------------------------------------
Bulk header parsing: Header::add_fields (src/inc/header.hpp:373-460)
and the byte-identical parsing constructor of the src/http variant
(src/http/header.hpp:237-326).  The loop is parameterised by the
variant's add_field so both headers share one faithful translation.
---------------------------------------------------------------- -/

/-- Byte accepted by the field-name scan: not EOF, not the colon, not a
control character, not whitespace. -/
def nameByte (c : Nat) : Bool :=
  !(c == eofByte) && !(c == 58) && !(iscntrlB c) && !(isspaceB c)

/-- Byte accepted by the value scan: not EOF, not a control character,
not CR, not LF. -/
def valueByte (c : Nat) : Bool :=
  !(c == eofByte) && !(iscntrlB c) && !(c == 13) && !(c == 10)

/-- CR or LF, the bytes consumed by the line-terminator-run counter. -/
def termByte (c : Nat) : Bool := c == 13 || c == 10

/-- The obsolete line-folding scan after the terminator run
(src/inc/header.hpp:444-453).  Consumes whitespace; returns the remaining
input and whether control jumps back to parse_value (the goto). -/
def foldScan : List Nat → List Nat × Bool
  | [] => ([], false)
  | c :: cs =>
    if isspaceB c then
      match cs with
      | _ :: c2 :: _ => if isspaceB c2 then foldScan cs else (cs, true)
      | _ => (cs, true)
    else (c :: cs, false)

/-- The parse_value section (src/inc/header.hpp:422-453): scan value
bytes, count the CR/LF run, break the whole bulk parse when the run is
exactly 3, otherwise handle folding.  Returns none for the break, and
some (value, rest) when the field is to be finalised.  Fuel is always
called with length + 1 (each resumption first consumes at least one
whitespace byte), so the 0 branch is unreachable. -/
def parseValueGo : Nat → List Nat → List Nat → Option (List Nat × List Nat)
  | 0, _, _ => none
  | fuel + 1, value, rest =>
    let v1 := rest.takeWhile valueByte
    let r1 := rest.dropWhile valueByte
    let lws := (r1.takeWhile termByte).length
    let r2 := r1.dropWhile termByte
    if lws = 3 then none
    else
      match foldScan r2 with
      | (r3, true) => parseValueGo fuel (value ++ v1) r3
      | (r3, false) => some (value ++ v1, r3)

/-- The outer add_fields loop, parameterised by the variant's add_field
(applied to the accumulated fields) and the capacity used in the
`limit < capacity` guard.  `cnt` is the local `limit` counter.  Fuel is
always called with length + 1; every iteration consumes at least the
colon byte, so the 0 branch is unreachable. -/
def addFieldsGo (addf : List HField → List Nat → List Nat → List HField) (cap : Nat) :
    Nat → List HField → Nat → List Nat → List HField
  | 0, fields, _, _ => fields
  | fuel + 1, fields, cnt, rest =>
    if rest.isEmpty ∨ rest.headD 0 = eofByte ∨ ¬ cnt < cap then fields
    else
      let r1 := rest.dropWhile isspaceB
      let name := r1.takeWhile nameByte
      let r2 := r1.dropWhile nameByte
      let r3 := r2.dropWhile isspaceB
      if r3.headD 0 = 58 then
        let r5 := r3.tail.dropWhile isspaceB
        match parseValueGo (r5.length + 1) [] r5 with
        | none => fields
        | some (value, r6) => addFieldsGo addf cap fuel (addf fields name value) (cnt + 1) r6
      else fields

/- ----------------------------------------------------------------
The src/inc/header.hpp Header (vector-backed, default capacity 25).
---------------------------------------------------------------- -/

namespace Inc

/-- Header from src/inc/header.hpp: ordered field sequence plus the
capacity fixed by set_limit (fields_.reserve(limit)). -/
structure Header where
  fields : List HField
  capacity : Nat
deriving DecidableEq

/-- Header::add_field (src/inc/header.hpp:361-371).  Note: only the
field name is checked for emptiness; the value is not. -/
def add_field (h : Header) (field value : List Nat) : Bool × Header :=
  if field.isEmpty then (false, h)
  else if h.fields.length < h.capacity then
    (true, { h with fields := h.fields ++ [(field, value)] })
  else (false, h)

/-- Header::find (src/inc/header.hpp:515-523): end() for an empty probe,
else the first case-insensitive match. -/
def find (fields : List HField) (field : List Nat) : Option HField :=
  if field.isEmpty then none else findField fields field

/-- Header::get_value (src/inc/header.hpp:475-480).  An empty probe
returns the (empty) probe itself; otherwise the result of find is
dereferenced unconditionally, which for a missing field dereferences the
end iterator: undefined behaviour, modelled as none. -/
def get_value (h : Header) (field : List Nat) : Option (List Nat) :=
  if field.isEmpty then some []
  else
    match find h.fields field with
    | some f => some f.2
    | none => none

/-- Header::has_field (src/inc/header.hpp:482-487). -/
def has_field (h : Header) (field : List Nat) : Bool :=
  if field.isEmpty then false else (find h.fields field).isSome

/-- Header::erase (src/inc/header.hpp:497-504): erases the single field
returned by find (the first match), if any. -/
def erase (h : Header) (field : List Nat) : Header :=
  if field.isEmpty then h else { h with fields := eraseFirst h.fields field }

/-- Header::add_fields (src/inc/header.hpp:373-460). -/
def add_fields (h : Header) (data : List Nat) : Header :=
  { h with
    fields :=
      addFieldsGo (fun fs n v => ((add_field ⟨fs, h.capacity⟩ n v).2).fields)
        h.capacity (data.length + 1) h.fields 0 data }

/-- Serialisation of a field list as Header::to_string emits it:
"name: value CRLF" per field, then the trailing blank line CRLF. -/
def serializeFields (fs : List HField) : List Nat :=
  fs.foldr (fun f acc => f.1 ++ [58, 32] ++ f.2 ++ [13, 10] ++ acc) [13, 10]

/-- Header::to_string (src/inc/header.hpp:525-535); identical output to
operator<< of the src/http variant (src/http/header.hpp:416-425). -/
def to_string (h : Header) : List Nat := serializeFields h.fields

end Inc

/- ----------------------------------------------------------------
The src/http/header.hpp Header (list-backed, default limit 100).
---------------------------------------------------------------- -/

namespace Htp

/-- Header from src/http/header.hpp: field list plus limit_ (default
100; a zero limit argument leaves the default in place). -/
structure Header where
  map : List HField
  limit : Nat
deriving DecidableEq

/-- Header::Header(limit) (src/http/header.hpp:232-235): keeps the
default 100 when the requested limit is zero. -/
def mkHeader (lim : Nat) : Header := ⟨[], if lim = 0 then 100 else lim⟩

/-- Header::add_field (src/http/header.hpp:337-347): rejects empty names
and empty values, then checks the limit. -/
def add_field (h : Header) (field value : List Nat) : Bool × Header :=
  if field.isEmpty ∨ value.isEmpty then (false, h)
  else if h.map.length < h.limit then
    (true, { h with map := h.map ++ [(field, value)] })
  else (false, h)

/-- The parsing constructor Header::Header(Header_Data&&, Limit)
(src/http/header.hpp:237-326), running the same loop as the src/inc
add_fields with this variant's add_field and limit. -/
def ofData (data : List Nat) (lim : Nat) : Header :=
  let h0 := mkHeader lim
  { h0 with
    map :=
      addFieldsGo (fun fs n v => ((add_field ⟨fs, h0.limit⟩ n v).2).map)
        h0.limit (data.length + 1) h0.map 0 data }

end Htp

/- ----------------------------------------------------------------
Start-line matchers: Request_line (src/inc/request_line.hpp) and
Status_line (src/inc/status_line.hpp).
---------------------------------------------------------------- -/

/-- leadsWith tok l: tok is an initial segment of l. -/
def leadsWith : List Nat → List Nat → Bool
  | [], _ => true
  | _ :: _, [] => false
  | t :: ts, c :: cs => t == c && leadsWith ts cs

/-- std::string::find: index of the first occurrence of pat, if any. -/
def findStr (pat : List Nat) : List Nat → Option Nat
  | [] => if pat.isEmpty then some 0 else none
  | c :: cs =>
    if leadsWith pat (c :: cs) then some 0
    else (findStr pat cs).map (· + 1)

/-- ASCII digit byte. -/
def digitB (c : Nat) : Bool := 48 ≤ c && c ≤ 57

/-- std::stoul / std::stoi on a scanned digit string. -/
def digitsToNat (ds : List Nat) : Nat := ds.foldl (fun a c => a * 10 + (c - 48)) 0

/-- The Method enumeration (src/inc/methods.hpp). -/
inductive Method
  | GET | POST | PUT | DELETE | OPTIONS | HEAD | TRACE | CONNECT | PATCH | INVALID
deriving DecidableEq

/-- The eight method alternatives of the request-line regex
(src/inc/request_line.hpp:194-199), paired with the Method that
method::code maps each string to.  PATCH is not in the regex. -/
def requestMethods : List (List Nat × Method) :=
  [(bytes "GET", .GET), (bytes "POST", .POST), (bytes "PUT", .PUT),
   (bytes "DELETE", .DELETE), (bytes "OPTIONS", .OPTIONS), (bytes "HEAD", .HEAD),
   (bytes "TRACE", .TRACE), (bytes "CONNECT", .CONNECT)]

/-- Match one alternative of "(GET|POST|...) " followed by the literal
space.  The alternatives are mutually prefix-free, so trying them in
order is equivalent to the regex alternation. -/
def pickMethod : List (List Nat × Method) → List Nat → Option (Method × List Nat)
  | [], _ => none
  | (tok, m) :: rest, l =>
    if leadsWith (tok ++ [32]) l then some (m, l.drop (tok.length + 1))
    else pickMethod rest l

/-- HTTP version pair (src/inc/version.hpp). -/
structure Version where
  major : Nat
  minor : Nat
deriving DecidableEq

/-- Full match of the request-line regex
"\s*(GET|POST|PUT|DELETE|OPTIONS|HEAD|TRACE|CONNECT) (\S+) HTTP/(\d+)\.(\d+)"
(src/inc/request_line.hpp:194-199).  Each variable-length piece of the
pattern is followed by a character outside its class, so the greedy
backtracking match is equivalent to this deterministic scan. -/
def matchRequestLine (line : List Nat) : Option (Method × List Nat × Nat × Nat) :=
  let l1 := line.dropWhile isspaceB
  match pickMethod requestMethods l1 with
  | none => none
  | some (m, l2) =>
    let uri := l2.takeWhile (fun c => !isspaceB c)
    let l3 := l2.dropWhile (fun c => !isspaceB c)
    if uri.isEmpty then none
    else
      match l3 with
      | 32 :: l4 =>
        if leadsWith (bytes "HTTP/") l4 then
          let l5 := l4.drop 5
          let d1 := l5.takeWhile digitB
          let l6 := l5.dropWhile digitB
          if d1.isEmpty then none
          else
            match l6 with
            | 46 :: l7 =>
              let d2 := l7.takeWhile digitB
              let l8 := l7.dropWhile digitB
              if d2.isEmpty ∨ ¬ l8.isEmpty then none
              else some (m, uri, digitsToNat d1, digitsToNat d2)
            | _ => none
        else none
      | _ => none

/-- Largest value of unsigned long on the LP64 x86-64 target (64 bits):
std::stoul throws std::out_of_range above it. -/
def ulongMax : Nat := 2 ^ 64 - 1

/-- Largest value of int on the target (32 bits): std::stoi throws
std::out_of_range above it (the scanned digit strings are unsigned). -/
def intMax : Nat := 2 ^ 31 - 1

/-- Modulus of the 32-bit unsigned type, for static_cast<unsigned>. -/
def uintMod : Nat := 2 ^ 32

/-- The failure modes of the Request_line constructor: its three
Request_line_error throw sites, plus the std::out_of_range that
std::stoul (src/inc/request_line.hpp:211-212) lets escape when a version
component exceeds unsigned long; it too aborts construction, but it is a
different exception type than Request_line_error. -/
inductive RLError
  | invalidRequest | invalidLineEnding | invalidRequestLine | versionOutOfRange
deriving DecidableEq

/-- Request_line data: method, URI (kept as its byte string; the URI
component is an external collaborator), version. -/
structure Request_line where
  method : Method
  uri : List Nat
  version : Version
deriving DecidableEq

/-- Extraction of the start line: the text before the first CRLF if one
occurs, else the text before the first bare LF (src/inc/request_line.hpp:183-190,
src/inc/status_line.hpp:169-176). -/
def startLineOf (request : List Nat) : Option (List Nat) :=
  match findStr [13, 10] request with
  | some i => some (request.take i)
  | none => (findStr [10] request).map (fun i => request.take i)

/-- The Request_line parsing constructor (src/inc/request_line.hpp:171-221).
On success it returns the parsed start line together with the trimmed
remainder of the caller's buffer (the constructor mutates the forwarded
string: request = request.substr(index + 2 or + 1)).  After the regex
matched, std::stoul is applied to each version digit string: a value
beyond unsigned long throws std::out_of_range (major first), and the
surviving values are narrowed by static_cast<unsigned>, i.e. reduced
mod 2^32. -/
def Request_line.parse (request : List Nat) : Except RLError (Request_line × List Nat) :=
  if request.length < 15 then .error .invalidRequest
  else
    match findStr [13, 10] request with
    | some i =>
      match matchRequestLine (request.take i) with
      | some (m, u, maj, mnr) =>
        if maj > ulongMax ∨ mnr > ulongMax then .error .versionOutOfRange
        else .ok (⟨m, u, ⟨maj % uintMod, mnr % uintMod⟩⟩, request.drop (i + 2))
      | none => .error .invalidRequestLine
    | none =>
      match findStr [10] request with
      | some i =>
        match matchRequestLine (request.take i) with
        | some (m, u, maj, mnr) =>
          if maj > ulongMax ∨ mnr > ulongMax then .error .versionOutOfRange
          else .ok (⟨m, u, ⟨maj % uintMod, mnr % uintMod⟩⟩, request.drop (i + 1))
        | none => .error .invalidRequestLine
      | none => .error .invalidLineEnding

/-- Reason-phrase byte class of the status-line regex: [a-z A-Z]. -/
def reasonByte (c : Nat) : Bool := (97 ≤ c && c ≤ 122) || c == 32 || (65 ≤ c && c ≤ 90)

/-- Full match of the status-line regex
"HTTP/(\d+)\.(\d+) (\d{3}) [a-z A-Z]+" (src/inc/status_line.hpp:178-183),
returning (major, minor, code). -/
def matchStatusLine (line : List Nat) : Option (Nat × Nat × Nat) :=
  if leadsWith (bytes "HTTP/") line then
    let l1 := line.drop 5
    let d1 := l1.takeWhile digitB
    let l2 := l1.dropWhile digitB
    if d1.isEmpty then none
    else
      match l2 with
      | 46 :: l3 =>
        let d2 := l3.takeWhile digitB
        let l4 := l3.dropWhile digitB
        if d2.isEmpty then none
        else
          match l4 with
          | 32 :: c1 :: c2 :: c3 :: l5 =>
            if digitB c1 && digitB c2 && digitB c3 then
              match l5 with
              | 32 :: l6 =>
                if ¬ l6.isEmpty ∧ l6.all (fun c => reasonByte c) then
                  some (digitsToNat d1, digitsToNat d2, digitsToNat [c1, c2, c3])
                else none
              | _ => none
            else none
          | _ => none
      | _ => none
  else none

/-- The failure modes of the Status_line constructor: its three
Status_line_error throw sites, plus the std::out_of_range that std::stoi
(src/inc/status_line.hpp:191) lets escape when a version component
exceeds int (the three-digit code never can). -/
inductive SLError
  | invalidResponse | invalidLineEnding | invalidResponseLine | versionOutOfRange
deriving DecidableEq

/-- Status_line data: version and status code. -/
structure Status_line where
  version : Version
  code : Nat
deriving DecidableEq

/-- The Status_line parsing constructor (src/inc/status_line.hpp:158-201).
It receives its string_view BY VALUE, so the final substr trims only the
local copy: no remaining-buffer is produced for the caller, which is why
this returns only the parsed Status_line.  After the regex matched,
std::stoi on a version digit string beyond int throws std::out_of_range;
an in-range (non-negative) int converts to the unsigned Version fields
exactly. -/
def Status_line.parse (response : List Nat) : Except SLError Status_line :=
  if response.length < 16 then .error .invalidResponse
  else
    match findStr [13, 10] response with
    | some i =>
      match matchStatusLine (response.take i) with
      | some (maj, mnr, code) =>
        if maj > intMax ∨ mnr > intMax then .error .versionOutOfRange
        else .ok ⟨⟨maj, mnr⟩, code⟩
      | none => .error .invalidResponseLine
    | none =>
      match findStr [10] response with
      | some i =>
        match matchStatusLine (response.take i) with
        | some (maj, mnr, code) =>
          if maj > intMax ∨ mnr > intMax then .error .versionOutOfRange
          else .ok ⟨⟨maj, mnr⟩, code⟩
        | none => .error .invalidResponseLine
      | none => .error .invalidLineEnding

/- ----------------------------------------------------------------
Message (src/inc/message.hpp), Request (src/inc/request.hpp) and
Response (src/inc/response.hpp) composition.
---------------------------------------------------------------- -/

/-- The Content-Length field name (header_fields::Entity::Content_Length;
its string value "Content-Length" appears in src/inc/header_fields.hpp). -/
def contentLength : List Nat := bytes "Content-Length"

/-- Decimal digits of n, with structural fuel (fuel n + 1 always
suffices); models std::to_string on an unsigned size. -/
def natDecimalGo : Nat → Nat → List Nat → List Nat
  | 0, _, acc => acc
  | f + 1, n, acc =>
    if n < 10 then (48 + n) :: acc
    else natDecimalGo f (n / 10) ((48 + n % 10) :: acc)

/-- std::to_string of a Nat as its byte string. -/
def natDecimal (n : Nat) : List Nat := natDecimalGo (n + 1) n []

/-- Message from src/inc/message.hpp: a Header plus the body string. -/
structure Message where
  header : Inc.Header
  body : List Nat
deriving DecidableEq

/-- Message::add_body (src/inc/message.hpp:403-411): a no-op for an empty
entity; otherwise replaces the body and add_header-APPENDS a
Content-Length field carrying the new body length. -/
def Message.add_body (m : Message) (message_body : List Nat) : Message :=
  if message_body.isEmpty then m
  else
    { header := (Inc.add_field m.header contentLength (natDecimal message_body.length)).2,
      body := message_body }

/-- Message::clear_body (src/inc/message.hpp:417-420): empties the body
and erase_header-erases (the first) Content-Length field. -/
def Message.clear_body (m : Message) : Message :=
  { header := Inc.erase m.header contentLength, body := [] }

/-- Message::header_value = Header::get_value on the message's header. -/
def Message.header_value (m : Message) (field : List Nat) : Option (List Nat) :=
  Inc.get_value m.header field

/-- Request as parsed by the Request constructor. -/
structure RequestM where
  request_line : Request_line
  header : Inc.Header
  body : List Nat
deriving DecidableEq

/-- Message body attachment as both message constructors perform it:
Message::add_body with its Content-Length side effect. -/
def attachBody (hdr : Inc.Header) (body : List Nat) : Message :=
  Message.add_body ⟨hdr, []⟩ body

/-- The Request parsing constructor (src/inc/request.hpp:205-215): the
Request_line constructor consumes and TRIMS the forwarded string, the
remainder is fed to add_headers, and the text after the first CRLFCRLF of
the remainder is attached with add_body. -/
def RequestM.parse (request : List Nat) (limit : Nat) : Except RLError RequestM :=
  match Request_line.parse request with
  | .error e => .error e
  | .ok (rl, rest) =>
    let hdr := Inc.add_fields ⟨[], limit⟩ rest
    let body :=
      match findStr [13, 10, 13, 10] rest with
      | some i => rest.drop (i + 4)
      | none => []
    let msg := attachBody hdr body
    .ok ⟨rl, msg.header, msg.body⟩

/-- Request::get_value (src/inc/request.hpp:262-279): plain substring
search for name, cut at the next ampersand, then take what follows the
first equals sign. -/
def Request.get_value (data name : List Nat) : List Nat :=
  if data.isEmpty ∨ name.isEmpty then []
  else
    match findStr name data with
    | none => []
    | some t =>
      let focal := (data.drop t).takeWhile (fun c => !(c == 38))
      match findStr [61] focal with
      | none => []
      | some j => focal.drop (j + 1)

/-- Request::post_value (src/inc/request.hpp:249-253): an empty string
for any non-POST method, else the get_value scan over the body. -/
def RequestM.post_value (r : RequestM) (name : List Nat) : List Nat :=
  if r.request_line.method ≠ .POST then []
  else Request.get_value r.body name

/-- Response as parsed by the Response constructor. -/
structure ResponseM where
  status_line : Status_line
  header : Inc.Header
  body : List Nat
deriving DecidableEq

/-- The Response parsing constructor (src/inc/response.hpp:147-160): the
Status_line constructor receives the response view BY VALUE, so the view
passed on to header().add_fields is the UNTRIMMED whole response; the
body is the text after the first CRLFCRLF (or LFLF) of that same whole
response, attached with add_body. -/
def ResponseM.parse (response : List Nat) (limit : Nat) : Except SLError ResponseM :=
  match Status_line.parse response with
  | .error e => .error e
  | .ok sl =>
    let hdr := Inc.add_fields ⟨[], limit⟩ response
    let body :=
      match findStr [13, 10, 13, 10] response with
      | some i => response.drop (i + 4)
      | none =>
        match findStr [10, 10] response with
        | some i => response.drop (i + 2)
        | none => []
    let msg := attachBody hdr body
    .ok ⟨sl, msg.header, msg.body⟩

deriving instance DecidableEq for Except

/- ----------------------------------------------------------------
Helper lemmas about the byte classes and list scans.
---------------------------------------------------------------- -/

/-- A byte allowed by claim C1 in names and values (no CR, LF, colon,
control or whitespace byte), further excluding 0xFF, the byte that the
code reads back as EOF (see the amendment of C1). -/
def goodByte (c : Nat) : Bool :=
  !(isspaceB c) && !(iscntrlB c) && !(c == 58) && !(c == eofByte)

/-- A field whose name and value are non-empty and consist of good
bytes. -/
def goodField (f : HField) : Prop :=
  f.1 ≠ [] ∧ f.2 ≠ [] ∧ (∀ c ∈ f.1, goodByte c = true) ∧ (∀ c ∈ f.2, goodByte c = true)

theorem goodByte_not_space {c : Nat} (h : goodByte c = true) : isspaceB c = false := by
  simp only [goodByte, Bool.and_eq_true, Bool.not_eq_true'] at h
  exact h.1.1.1

theorem goodByte_name {c : Nat} (h : goodByte c = true) : nameByte c = true := by
  simp only [goodByte, Bool.and_eq_true, Bool.not_eq_true'] at h
  simp only [nameByte, Bool.and_eq_true, Bool.not_eq_true']
  refine ⟨⟨⟨h.2, h.1.2⟩, h.1.1.2⟩, h.1.1.1⟩

theorem goodByte_value {c : Nat} (h : goodByte c = true) : valueByte c = true := by
  simp only [goodByte, Bool.and_eq_true, Bool.not_eq_true', isspaceB, iscntrlB,
    Bool.or_eq_false_iff, beq_eq_false_iff_ne, ne_eq, Bool.and_eq_false_iff,
    decide_eq_false_iff_not, not_lt, not_le] at h
  simp only [valueByte, Bool.and_eq_true, Bool.not_eq_true', isspaceB, iscntrlB,
    Bool.or_eq_false_iff, beq_eq_false_iff_ne, ne_eq, Bool.and_eq_false_iff,
    decide_eq_false_iff_not, not_lt, not_le]
  omega

theorem goodByte_not_term {c : Nat} (h : goodByte c = true) : termByte c = false := by
  simp only [goodByte, Bool.and_eq_true, Bool.not_eq_true', isspaceB, iscntrlB,
    Bool.or_eq_false_iff, beq_eq_false_iff_ne, ne_eq, Bool.and_eq_false_iff,
    decide_eq_false_iff_not, not_lt, not_le] at h
  simp only [termByte, Bool.or_eq_false_iff, beq_eq_false_iff_ne, ne_eq]
  omega

theorem goodByte_ne_eof {c : Nat} (h : goodByte c = true) : c ≠ eofByte := by
  simp only [goodByte, Bool.and_eq_true, Bool.not_eq_true', beq_eq_false_iff_ne, ne_eq] at h
  exact h.2

theorem takeWhile_append_all {p : Nat → Bool} {l r : List Nat}
    (h : ∀ x ∈ l, p x = true) : (l ++ r).takeWhile p = l ++ r.takeWhile p := by
  induction l with
  | nil => rfl
  | cons x xs ih =>
    have hx : p x = true := h x (by simp)
    simp only [List.cons_append, List.takeWhile_cons, hx, if_true]
    rw [ih (fun y hy => h y (by simp [hy]))]

theorem dropWhile_append_all {p : Nat → Bool} {l r : List Nat}
    (h : ∀ x ∈ l, p x = true) : (l ++ r).dropWhile p = r.dropWhile p := by
  induction l with
  | nil => rfl
  | cons x xs ih =>
    have hx : p x = true := h x (by simp)
    simp only [List.cons_append, List.dropWhile_cons, hx, if_true]
    exact ih (fun y hy => h y (by simp [hy]))

theorem takeWhile_cons_neg {p : Nat → Bool} {x : Nat} {xs : List Nat}
    (h : p x = false) : (x :: xs).takeWhile p = [] := by
  simp [List.takeWhile_cons, h]

theorem dropWhile_cons_neg {p : Nat → Bool} {x : Nat} {xs : List Nat}
    (h : p x = false) : (x :: xs).dropWhile p = x :: xs := by
  simp [List.dropWhile_cons, h]

theorem serializeFields_cons (f : HField) (fs : List HField) :
    Inc.serializeFields (f :: fs) =
      f.1 ++ 58 :: 32 :: (f.2 ++ 13 :: 10 :: Inc.serializeFields fs) := by
  simp [Inc.serializeFields, List.foldr_cons]

theorem addFieldsGo_nil (addf : List HField → List Nat → List Nat → List HField)
    (cap fuel : Nat) (fields : List HField) (cnt : Nat) :
    addFieldsGo addf cap fuel fields cnt [] = fields := by
  cases fuel <;> simp [addFieldsGo]

/- ----------------------------------------------------------------
Claim theorems.
---------------------------------------------------------------- -/

/-- Claim C9: bulk-parsing "Accept: a,\r\n  b,\r\n  c\r\n\r\n" into an
empty collection of sufficient capacity yields exactly one field, named
Accept, with value "a, b, c": each folded continuation line continues the
same value with the fold collapsed to a single space.  Shown for the
src/inc add_fields (capacity 25) and the src/http parsing constructor
(limit 100). -/
theorem c9_folding :
    (Inc.add_fields ⟨[], 25⟩ (bytes "Accept: a,\r\n  b,\r\n  c\r\n\r\n")).fields
        = [(bytes "Accept", bytes "a, b, c")] ∧
    (Htp.ofData (bytes "Accept: a,\r\n  b,\r\n  c\r\n\r\n") 100).map
        = [(bytes "Accept", bytes "a, b, c")] := by
  constructor <;> decide

/-- Claim C3, counterexample: the bulk parser does NOT stop at the blank
line.  In "A: x\r\n\r\nkey:val" the blank line CRLFCRLF sits at index 4
(so the body "key:val" occupies the bytes from index 8 on), yet the
parser stores the field (key, val), derived entirely from those
post-blank-line bytes: the CRLFCRLF boundary is a terminator run of
length 4, and the stop condition fires only on a run of exactly 3. -/
theorem c3_bulk_stop_counterexample :
    findStr [13, 10, 13, 10] (bytes "A: x\r\n\r\nkey:val") = some 4 ∧
    (bytes "A: x\r\n\r\nkey:val").drop 8 = bytes "key" ++ [58] ++ bytes "val" ∧
    (Inc.add_fields ⟨[], 25⟩ (bytes "A: x\r\n\r\nkey:val")).fields
        = [(bytes "A", bytes "x"), (bytes "key", bytes "val")] := by
  refine ⟨by decide, by decide, by decide⟩

/-- Claim C3, amended: the bulk parse stops as a whole only when a run of
consecutive CR/LF bytes has length exactly 3 (discarding the field being
scanned); a canonical CRLFCRLF blank line produces a run of 4, so parsing
continues into the message body, and colon-bearing body text is stored as
a header field.  Both behaviours at concrete inputs: the CRLFCRLF input
stores the body line as a field, while a run of exactly three terminators
("A: x\n\n\nkey:val") aborts the parse with no field stored. -/
theorem c3_bulk_stop_amended :
    (Inc.add_fields ⟨[], 25⟩ (bytes "A: x\r\n\r\nkey:val")).fields
        = [(bytes "A", bytes "x"), (bytes "key", bytes "val")] ∧
    (Inc.add_fields ⟨[], 25⟩ (bytes "A: x\n\n\nkey:val")).fields = [] := by
  constructor <;> decide

/-- Claim C5: the repository documents erase as removing ALL fields with
the given name (doc comments in src/inc/header.hpp:252-258 and
src/http/header.hpp:189-194), and the claim states that afterwards has
is false; but the code erases only the single field returned by find
(the first match).  Evaluation at the failing input: a collection holding
Accept and accept keeps the second one, and has still reports the name
present. -/
theorem c5_erase_eval :
    Inc.erase ⟨[(bytes "Accept", bytes "a"), (bytes "accept", bytes "b")], 25⟩ (bytes "Accept")
        = ⟨[(bytes "accept", bytes "b")], 25⟩ ∧
    Inc.has_field
      (Inc.erase ⟨[(bytes "Accept", bytes "a"), (bytes "accept", bytes "b")], 25⟩ (bytes "Accept"))
      (bytes "Accept") = true := by
  constructor <;> decide

/-- Claim C1, counterexample: the round-trip fails for a field whose name
is the single byte 0xFF.  That byte is neither CR, LF, the colon, a
control character nor whitespace, and the collection is far below
capacity, yet re-parsing the serialised text yields no field at all: the
byte 0xFF read through the signed char of the target equals
char_traits<char>::eof(), so the bulk parser stops immediately. -/
theorem c1_roundtrip_counterexample :
    (∀ f ∈ [(([255] : List Nat), bytes "v")],
        f.1 ≠ [] ∧ f.2 ≠ [] ∧
        ∀ c ∈ f.1 ++ f.2,
          iscntrlB c = false ∧ isspaceB c = false ∧ c ≠ 58 ∧ c ≠ 13 ∧ c ≠ 10) ∧
    ([(([255] : List Nat), bytes "v")].length ≤ 25) ∧
    (Inc.add_fields ⟨[], 25⟩ (Inc.to_string ⟨[([255], bytes "v")], 25⟩)).fields
        ≠ [([255], bytes "v")] := by
  refine ⟨by decide, by decide, by decide⟩

/-- Claim C2, counterexample: the src/inc Header::add_field does not
check the value for emptiness: adding the pair ("A", "") to an empty
collection returns true and stores the empty-valued field, where the
claim requires false and no change. -/
theorem c2_add_field_counterexample :
    Inc.add_field ⟨[], 25⟩ (bytes "A") [] = (true, ⟨[(bytes "A", [])], 25⟩) := by
  decide

/-- Claim C4, counterexample: looking up a name with no matching field
does not produce an empty result; Header::get_value dereferences the end
iterator returned by find, which is undefined behaviour (modelled as
none, distinct from the empty value some []). -/
theorem c4_get_value_counterexample :
    Inc.get_value ⟨[], 25⟩ (bytes "x") = none ∧
    Inc.get_value ⟨[], 25⟩ (bytes "x") ≠ some [] := by
  constructor <;> decide

/-- Claim C7, counterexample: after a successful status-line parse the
consumed prefix is NOT removed from the caller's buffer.  The Status_line
constructor takes its string_view by value, so the Response constructor
hands the untrimmed response to header parsing: although the suffix after
the start line parses to the field (Server, x), the constructed Response
has no header fields at all, because header parsing restarted at the
"HTTP/1.1 ..." prefix. -/
theorem c7_trim_counterexample :
    Status_line.parse (bytes "HTTP/1.1 200 OK\r\nServer: x\r\n\r\n") = .ok ⟨⟨1, 1⟩, 200⟩ ∧
    ResponseM.parse (bytes "HTTP/1.1 200 OK\r\nServer: x\r\n\r\n") 25
        = .ok ⟨⟨⟨1, 1⟩, 200⟩, ⟨[], 25⟩, []⟩ ∧
    Inc.add_fields ⟨[], 25⟩ ((bytes "HTTP/1.1 200 OK\r\nServer: x\r\n\r\n").drop 17)
        = ⟨[(bytes "Server", bytes "x")], 25⟩ := by
  refine ⟨by decide, by decide, by decide⟩

/-- Claim C8, counterexample: attaching a body twice appends a second
Content-Length field instead of updating the first (add_body uses
add_header, which appends).  After add_body "ab" then add_body "wxyz" the
lookup returns the stale value 2 while the current body has length 4, and
a subsequent clear_body erases only the first Content-Length field,
leaving one behind with the body already empty. -/
theorem c8_content_length_counterexample :
    (((Message.mk ⟨[], 25⟩ []).add_body (bytes "ab")).add_body (bytes "wxyz")).body
        = bytes "wxyz" ∧
    (((Message.mk ⟨[], 25⟩ []).add_body (bytes "ab")).add_body (bytes "wxyz")).header_value
        contentLength = some (bytes "2") ∧
    natDecimal (((Message.mk ⟨[], 25⟩ []).add_body (bytes "ab")).add_body
        (bytes "wxyz")).body.length = bytes "4" ∧
    bytes "2" ≠ bytes "4" ∧
    ((((Message.mk ⟨[], 25⟩ []).add_body (bytes "ab")).add_body
        (bytes "wxyz")).clear_body).body = [] ∧
    Inc.has_field
      ((((Message.mk ⟨[], 25⟩ []).add_body (bytes "ab")).add_body
          (bytes "wxyz")).clear_body).header contentLength = true := by
  refine ⟨by decide, by decide, by decide, by decide, by decide, by decide⟩

/-- Claim C10: for every Request whose method is not POST, post_value
returns the empty string regardless of the body; the body is consulted
only for POST (src/inc/request.hpp:249-253). -/
theorem c10_post_value (r : RequestM) (name : List Nat)
    (h : r.request_line.method ≠ Method.POST) : r.post_value name = [] := by
  simp [RequestM.post_value, h]

/-- Claim C10 witness: a GET request whose body does contain a matching
name=value pair still yields the empty string. -/
theorem c10_post_value_witness :
    RequestM.post_value
      ⟨⟨Method.GET, bytes "/", ⟨1, 1⟩⟩, ⟨[], 100⟩, bytes "name=rico"⟩ (bytes "name") = [] :=
  c10_post_value ⟨⟨Method.GET, bytes "/", ⟨1, 1⟩⟩, ⟨[], 100⟩, bytes "name=rico"⟩
    (bytes "name") (by decide)

/-- findField distributes over append: the left list is searched first. -/
theorem findField_append (l1 l2 : List HField) (n : List Nat) :
    findField (l1 ++ l2) n =
      match findField l1 n with
      | some f => some f
      | none => findField l2 n := by
  induction l1 with
  | nil => simp [findField]
  | cons f fs ih =>
    by_cases hm : (string_to_lower_case f.1 == string_to_lower_case n) = true
    · simp [findField, hm]
    · rw [Bool.not_eq_true] at hm
      simp only [List.cons_append, findField, hm]
      simpa using ih

/-- A list with no case-insensitive match has findField = none. -/
theorem countMatches_zero_findField {l : List HField} {n : List Nat}
    (h : countMatches l n = 0) : findField l n = none := by
  induction l with
  | nil => rfl
  | cons f fs ih =>
    by_cases hm : (string_to_lower_case f.1 == string_to_lower_case n) = true
    · exfalso
      simp [countMatches, List.filter_cons, hm] at h
    · rw [Bool.not_eq_true] at hm
      simp only [countMatches, List.filter_cons, hm] at h
      simp only [findField, hm]
      simp only [Bool.false_eq_true, if_false]
      exact ih h

/-- Erasing the first match from a list with at most one match leaves a
list with no match. -/
theorem eraseFirst_no_match {l : List HField} {n : List Nat}
    (h : countMatches l n ≤ 1) : countMatches (eraseFirst l n) n = 0 := by
  induction l with
  | nil => rfl
  | cons f fs ih =>
    by_cases hm : (string_to_lower_case f.1 == string_to_lower_case n) = true
    · simp only [countMatches, List.filter_cons, hm, if_pos, List.length_cons] at h
      simp only [eraseFirst, hm, if_pos]
      simp only [countMatches] at h ⊢
      omega
    · rw [Bool.not_eq_true] at hm
      simp only [countMatches, List.filter_cons, hm] at h
      simp only [eraseFirst, hm, Bool.false_eq_true, if_false]
      simp only [countMatches, List.filter_cons, hm, Bool.false_eq_true, if_false]
      simp only [countMatches] at ih
      exact ih h

/-- Claim C2, amended: add rejects an empty name and rejects any add at
capacity, returning false with the collection unchanged, and otherwise
appends the pair and returns true; the src/http variant additionally
rejects an empty value, but the src/inc variant accepts and stores an
empty value.  In both variants an add never pushes the size above the
capacity. -/
theorem c2_add_field_amended :
    (∀ (h : Inc.Header) (f v : List Nat),
        (f = [] → Inc.add_field h f v = (false, h)) ∧
        (¬ h.fields.length < h.capacity → Inc.add_field h f v = (false, h)) ∧
        (f ≠ [] → h.fields.length < h.capacity →
          Inc.add_field h f v = (true, ⟨h.fields ++ [(f, v)], h.capacity⟩))) ∧
    (∀ (h : Htp.Header) (f v : List Nat),
        (f = [] ∨ v = [] → Htp.add_field h f v = (false, h)) ∧
        (¬ h.map.length < h.limit → Htp.add_field h f v = (false, h)) ∧
        (f ≠ [] → v ≠ [] → h.map.length < h.limit →
          Htp.add_field h f v = (true, ⟨h.map ++ [(f, v)], h.limit⟩))) ∧
    (∀ (h : Inc.Header) (f v : List Nat),
        h.fields.length ≤ h.capacity → ((Inc.add_field h f v).2).fields.length ≤ h.capacity) ∧
    (∀ (h : Htp.Header) (f v : List Nat),
        h.map.length ≤ h.limit → ((Htp.add_field h f v).2).map.length ≤ h.limit) := by
  refine ⟨?_, ?_, ?_, ?_⟩
  · intro h f v
    refine ⟨?_, ?_, ?_⟩
    · intro hf; simp [Inc.add_field, hf]
    · intro hc
      by_cases hf : f = []
      · simp [Inc.add_field, hf]
      · simp [Inc.add_field, List.isEmpty_iff, hf, hc]
    · intro hf hc
      cases h with
      | mk fields capacity => simp [Inc.add_field, List.isEmpty_iff, hf, hc]
  · intro h f v
    refine ⟨?_, ?_, ?_⟩
    · intro hfv
      rcases hfv with hf | hv
      · simp [Htp.add_field, hf]
      · simp [Htp.add_field, hv, List.isEmpty_iff]
    · intro hc
      by_cases hf : f = []
      · simp [Htp.add_field, hf]
      · by_cases hv : v = []
        · simp [Htp.add_field, hv, List.isEmpty_iff]
        · simp [Htp.add_field, List.isEmpty_iff, hf, hv, hc]
    · intro hf hv hc
      cases h with
      | mk map limit => simp [Htp.add_field, List.isEmpty_iff, hf, hv, hc]
  · intro h f v hle
    by_cases hf : f = []
    · simp [Inc.add_field, hf, hle]
    · by_cases hc : h.fields.length < h.capacity
      · simp [Inc.add_field, List.isEmpty_iff, hf, hc]
        omega
      · simp [Inc.add_field, List.isEmpty_iff, hf, hc, hle]
  · intro h f v hle
    by_cases hf : f = []
    · simp [Htp.add_field, hf, hle]
    · by_cases hv : v = []
      · simp [Htp.add_field, hv, List.isEmpty_iff, hle]
      · by_cases hc : h.map.length < h.limit
        · simp [Htp.add_field, List.isEmpty_iff, hf, hv, hc]
          omega
        · simp [Htp.add_field, List.isEmpty_iff, hf, hv, hc, hle]

/-- Claim C2, amended, witness: a concrete successful append and a
concrete at-capacity rejection via the theorem. -/
theorem c2_add_field_amended_witness :
    Inc.add_field ⟨[], 25⟩ (bytes "A") (bytes "b")
        = (true, ⟨[(bytes "A", bytes "b")], 25⟩) ∧
    Htp.add_field ⟨[(bytes "A", bytes "b")], 1⟩ (bytes "C") (bytes "d")
        = (false, ⟨[(bytes "A", bytes "b")], 1⟩) :=
  ⟨(c2_add_field_amended.1 ⟨[], 25⟩ (bytes "A") (bytes "b")).2.2 (by decide) (by decide),
   (c2_add_field_amended.2.1 ⟨[(bytes "A", bytes "b")], 1⟩ (bytes "C") (bytes "d")).2.1
     (by decide)⟩

/-- Claim C4, amended: value lookup returns the empty string for an empty
name and the value of the first case-insensitive match when one exists;
when the name is non-empty and no field matches, the code dereferences
the end iterator (undefined behaviour, modelled as none), so callers must
check has_field first. -/
theorem c4_get_value_amended (h : Inc.Header) (field : List Nat) :
    (field = [] → Inc.get_value h field = some []) ∧
    (∀ f, Inc.find h.fields field = some f → Inc.get_value h field = some f.2) ∧
    (field ≠ [] → Inc.find h.fields field = none → Inc.get_value h field = none) := by
  refine ⟨?_, ?_, ?_⟩
  · intro hf; simp [Inc.get_value, hf]
  · intro f hf
    have hne : field ≠ [] := by
      intro he
      rw [he] at hf
      simp [Inc.find] at hf
    simp [Inc.get_value, List.isEmpty_iff, hne, hf]
  · intro hne hf
    simp [Inc.get_value, List.isEmpty_iff, hne, hf]

/-- Claim C4, amended, witness: a case-insensitive hit through the
theorem's second clause. -/
theorem c4_get_value_amended_witness :
    Inc.get_value ⟨[(bytes "A", bytes "1")], 25⟩ (bytes "a") = some (bytes "1") :=
  (c4_get_value_amended ⟨[(bytes "A", bytes "1")], 25⟩ (bytes "a")).2.1
    (bytes "A", bytes "1") (by decide)

/-- Claim C8, amended: on a message whose header has no Content-Length
field yet and has room for one more field, add_body with a non-empty
entity installs the body and a Content-Length header whose looked-up
value is the decimal length of the new body; clear_body on a message
holding at most one Content-Length field leaves an empty body and no
Content-Length header.  (The unrestricted claim fails: a second add_body
appends a duplicate instead of updating, see the counterexample.) -/
theorem c8_content_length_amended :
    (∀ (m : Message) (b : List Nat), b ≠ [] →
        Inc.has_field m.header contentLength = false →
        m.header.fields.length < m.header.capacity →
        (m.add_body b).body = b ∧
        (m.add_body b).header_value contentLength = some (natDecimal b.length) ∧
        Inc.has_field (m.add_body b).header contentLength = true) ∧
    (∀ m : Message, countMatches m.header.fields contentLength ≤ 1 →
        (m.clear_body).body = [] ∧
        Inc.has_field (m.clear_body).header contentLength = false) := by
  have hclne : contentLength ≠ [] := by decide
  have hclE : contentLength.isEmpty = false := by decide
  constructor
  · intro m b hb hno hcap
    have hfind : findField m.header.fields contentLength = none := by
      cases hcase : findField m.header.fields contentLength with
      | none => rfl
      | some f =>
        exfalso
        simp [Inc.has_field, Inc.find, hclE, hcase] at hno
    have hadd : (Inc.add_field m.header contentLength (natDecimal b.length)).2
        = ⟨m.header.fields ++ [(contentLength, natDecimal b.length)], m.header.capacity⟩ := by
      simp [Inc.add_field, hclE, hcap]
    have hfind2 : findField (m.header.fields ++ [(contentLength, natDecimal b.length)])
        contentLength = some (contentLength, natDecimal b.length) := by
      rw [findField_append, hfind]
      simp [findField]
    refine ⟨?_, ?_, ?_⟩
    · simp [Message.add_body, List.isEmpty_iff, hb]
    · simp [Message.add_body, List.isEmpty_iff, hb, Message.header_value, hadd,
        Inc.get_value, Inc.find, hclE, hfind2]
    · simp [Message.add_body, List.isEmpty_iff, hb, hadd, Inc.has_field,
        Inc.find, hclE, hfind2]
  · intro m hcnt
    refine ⟨rfl, ?_⟩
    simp [Message.clear_body, Inc.erase, Inc.has_field, Inc.find, hclE,
      countMatches_zero_findField (eraseFirst_no_match hcnt)]

/-- Claim C8, amended, witness: a single add_body on a fresh message and
a clear_body on its result, through the theorem. -/
theorem c8_content_length_amended_witness :
    ((Message.mk ⟨[], 25⟩ []).add_body (bytes "hi")).body = bytes "hi" ∧
    ((Message.mk ⟨[], 25⟩ []).add_body (bytes "hi")).header_value contentLength
        = some (natDecimal (bytes "hi").length) ∧
    Inc.has_field ((Message.mk ⟨[], 25⟩ []).add_body (bytes "hi")).header contentLength
        = true :=
  c8_content_length_amended.1 (Message.mk ⟨[], 25⟩ []) (bytes "hi")
    (by decide) (by decide) (by decide)

/-- Whether a Request_line parse failed with the Request_line_error
exception (one of the three malformed-start-line throw sites), as
opposed to succeeding or to the escaping std::out_of_range. -/
def malformedStartLine {α : Type} (e : Except RLError α) : Bool :=
  match e with
  | .error .invalidRequest => true
  | .error .invalidLineEnding => true
  | .error .invalidRequestLine => true
  | _ => false

/-- Claim C6: constructing a request start line fails with the
distinguishable malformed-start-line error (Request_line_error) exactly
when the input is shorter than the minimum plausible length (15, which
covers the empty input), no line terminator (CRLF or bare LF) is found,
or the extracted first line does not match the request-line grammar of
the code (the regex with its closed method set, which also tolerates
leading whitespace); on any failure no object is produced.  In
particular construction from "GET / \n" and from "" raises the error.
A grammar-matching line whose version digits overflow unsigned long
fails too, but through the distinct escaping std::out_of_range, shown in
the last conjunct. -/
theorem c6_request_line_strict :
    (∀ request : List Nat,
        malformedStartLine (Request_line.parse request) = true ↔
          (request.length < 15 ∨
            (startLineOf request).bind (fun l => matchRequestLine l) = none)) ∧
    Request_line.parse (bytes "GET / \n") = .error .invalidRequest ∧
    Request_line.parse (bytes "") = .error .invalidRequest ∧
    Request_line.parse (bytes "GET / HTTP/18446744073709551616.0\r\nHost: h\r\n\r\n")
        = .error .versionOutOfRange := by
  refine ⟨?_, by decide, by decide, by decide⟩
  intro request
  by_cases h15 : request.length < 15
  · simp [Request_line.parse, h15, malformedStartLine]
  · cases hc : findStr [13, 10] request with
    | some i =>
      cases hm : matchRequestLine (request.take i) with
      | some t =>
        obtain ⟨m, u, maj, mnr⟩ := t
        by_cases hov : maj > ulongMax ∨ mnr > ulongMax
        · simp [Request_line.parse, h15, hc, hm, hov, malformedStartLine, startLineOf]
        · simp [Request_line.parse, h15, hc, hm, hov, malformedStartLine, startLineOf]
      | none => simp [Request_line.parse, h15, hc, hm, malformedStartLine, startLineOf]
    | none =>
      cases hl : findStr [10] request with
      | some i =>
        cases hm : matchRequestLine (request.take i) with
        | some t =>
          obtain ⟨m, u, maj, mnr⟩ := t
          by_cases hov : maj > ulongMax ∨ mnr > ulongMax
          · simp [Request_line.parse, h15, hc, hl, hm, hov, malformedStartLine, startLineOf]
          · simp [Request_line.parse, h15, hc, hl, hm, hov, malformedStartLine, startLineOf]
        | none => simp [Request_line.parse, h15, hc, hl, hm, malformedStartLine, startLineOf]
      | none => simp [Request_line.parse, h15, hc, hl, malformedStartLine, startLineOf]

/-- A successful leadsWith exhibits the token as the initial segment. -/
theorem leadsWith_eq : ∀ {tok l : List Nat}, leadsWith tok l = true →
    l = tok ++ l.drop tok.length := by
  intro tok
  induction tok with
  | nil => intro l _; simp
  | cons t ts ih =>
    intro l h
    cases l with
    | nil => simp [leadsWith] at h
    | cons c cs =>
      simp only [leadsWith, Bool.and_eq_true, beq_iff_eq] at h
      obtain ⟨rfl, h2⟩ := h
      simpa using ih h2

/-- findStr really locates the pattern: the input splits as the first i
bytes, the pattern, and the tail starting at i plus the pattern length. -/
theorem findStr_decomp : ∀ {pat s : List Nat} {i : Nat}, findStr pat s = some i →
    s = s.take i ++ pat ++ s.drop (i + pat.length) := by
  intro pat s
  induction s with
  | nil =>
    intro i h
    simp only [findStr] at h
    by_cases hp : pat.isEmpty
    · rw [List.isEmpty_iff] at hp
      subst hp
      simp
    · simp [hp] at h
  | cons c cs ih =>
    intro i h
    simp only [findStr] at h
    by_cases hl : leadsWith pat (c :: cs) = true
    · rw [if_pos hl] at h
      injection h with h0
      subst h0
      simpa using leadsWith_eq hl
    · rw [if_neg (by simp [hl]), Option.map_eq_some'] at h
      obtain ⟨j, hj, rfl⟩ := h
      have hcs := ih hj
      calc c :: cs = c :: (cs.take j ++ pat ++ cs.drop (j + pat.length)) := by rw [← hcs]
        _ = (c :: cs).take (j + 1) ++ pat ++ (c :: cs).drop (j + 1 + pat.length) := by
              simp [List.take_succ_cons, Nat.add_assoc, Nat.add_comm 1 pat.length]
              rfl

/-- Claim C7, amended: on a successful request-line parse the consumed
prefix (the matched line plus its CRLF or bare-LF terminator) is removed
from the caller's buffer, so header parsing resumes right after the start
line; for a status line, however, the Status_line constructor receives
its view by value, so the caller's buffer is NOT trimmed and the Response
constructor hands the full response (status line included) to header
parsing, as the concrete response shows: its Host field, recoverable from
the suffix after the start line (24 bytes), is absent from the parsed
Response. -/
theorem c7_trim_amended :
    (∀ (request : List Nat) (rl : Request_line) (rest : List Nat),
        Request_line.parse request = .ok (rl, rest) →
        ∃ line term, request = line ++ term ++ rest ∧
          (term = [13, 10] ∨ term = [10]) ∧ (matchRequestLine line).isSome = true) ∧
    (ResponseM.parse (bytes "HTTP/1.1 404 Not Found\r\nHost: h\r\n\r\n") 25
        = .ok ⟨⟨⟨1, 1⟩, 404⟩, ⟨[], 25⟩, []⟩ ∧
      Inc.add_fields ⟨[], 25⟩ ((bytes "HTTP/1.1 404 Not Found\r\nHost: h\r\n\r\n").drop 24)
        = ⟨[(bytes "Host", bytes "h")], 25⟩) := by
  refine ⟨?_, by decide, by decide⟩
  intro request rl rest h
  simp only [Request_line.parse] at h
  by_cases h15 : request.length < 15
  · rw [if_pos h15] at h
    exact absurd h (by simp)
  · rw [if_neg h15] at h
    cases hc : findStr [13, 10] request with
    | some i =>
      simp only [hc] at h
      cases hm : matchRequestLine (request.take i) with
      | none => simp [hm] at h
      | some t =>
        obtain ⟨m, u, maj, mnr⟩ := t
        simp only [hm] at h
        by_cases hov : maj > ulongMax ∨ mnr > ulongMax
        · rw [if_pos hov] at h
          exact absurd h (by simp)
        · rw [if_neg hov] at h
          simp only [Except.ok.injEq, Prod.mk.injEq] at h
          obtain ⟨_, hrest⟩ := h
          refine ⟨request.take i, [13, 10], ?_, Or.inl rfl, by simp [hm]⟩
          rw [← hrest]
          simpa using findStr_decomp hc
    | none =>
      simp only [hc] at h
      cases hl : findStr [10] request with
      | some i =>
        simp only [hl] at h
        cases hm : matchRequestLine (request.take i) with
        | none => simp [hm] at h
        | some t =>
          obtain ⟨m, u, maj, mnr⟩ := t
          simp only [hm] at h
          by_cases hov : maj > ulongMax ∨ mnr > ulongMax
          · rw [if_pos hov] at h
            exact absurd h (by simp)
          · rw [if_neg hov] at h
            simp only [Except.ok.injEq, Prod.mk.injEq] at h
            obtain ⟨_, hrest⟩ := h
            refine ⟨request.take i, [10], ?_, Or.inr rfl, by simp [hm]⟩
            rw [← hrest]
            simpa using findStr_decomp hl
      | none => simp [hl] at h

/-- Claim C7, amended, witness: the request-line clause applied to a
concrete request whose header block follows a CRLF. -/
theorem c7_trim_amended_witness :
    ∃ line term, bytes "GET / HTTP/1.1\r\nZ: z\r\n\r\n" = line ++ term ++ bytes "Z: z\r\n\r\n" ∧
      (term = [13, 10] ∨ term = [10]) ∧ (matchRequestLine line).isSome = true :=
  c7_trim_amended.1 (bytes "GET / HTTP/1.1\r\nZ: z\r\n\r\n")
    ⟨Method.GET, bytes "/", ⟨1, 1⟩⟩ (bytes "Z: z\r\n\r\n") (by decide)

/- ----------------------------------------------------------------
Round-trip proof for claim C1.
---------------------------------------------------------------- -/

theorem takeWhile_cons_pos {p : Nat → Bool} {x : Nat} {xs : List Nat}
    (h : p x = true) : (x :: xs).takeWhile p = x :: xs.takeWhile p := by
  simp [List.takeWhile_cons, h]

theorem dropWhile_cons_pos {p : Nat → Bool} {x : Nat} {xs : List Nat}
    (h : p x = true) : (x :: xs).dropWhile p = xs.dropWhile p := by
  simp [List.dropWhile_cons, h]

theorem dropWhile_append_cons_neg {p : Nat → Bool} {x : Nat} {xs r : List Nat}
    (h : p x = false) : ((x :: xs) ++ r).dropWhile p = (x :: xs) ++ r := by
  simp [List.cons_append, List.dropWhile_cons, h]

theorem foldScan_cons_neg {c : Nat} {cs : List Nat} (h : isspaceB c = false) :
    foldScan (c :: cs) = (c :: cs, false) := by
  simp [foldScan, h]

/-- parseValueGo on a serialised last field: the value bytes, then the
final CRLF and the trailing blank line.  The terminator run has length 4,
so the 3-terminator break does not fire and the field is finalised with
the input exhausted. -/
theorem parseValueGo_last {m : Nat} {v : List Nat}
    (hvb : ∀ c ∈ v, valueByte c = true) :
    parseValueGo (m + 1) [] (v ++ [13, 10, 13, 10]) = some (v, []) := by
  simp only [parseValueGo]
  rw [takeWhile_append_all hvb,
    show List.takeWhile valueByte [13, 10, 13, 10] = ([] : List Nat) from by decide,
    List.append_nil, dropWhile_append_all hvb,
    show List.dropWhile valueByte [13, 10, 13, 10] = ([13, 10, 13, 10] : List Nat) from by
      decide,
    show List.takeWhile termByte [13, 10, 13, 10] = ([13, 10, 13, 10] : List Nat) from by
      decide,
    show List.dropWhile termByte [13, 10, 13, 10] = ([] : List Nat) from by decide]
  simp [foldScan]

/-- parseValueGo on a serialised inner field: the value bytes, the CRLF,
then the next line starting with a non-space non-terminator byte.  The
terminator run has length 2 and no folding applies, so the field is
finalised exactly at the start of the next line. -/
theorem parseValueGo_mid {m : Nat} {v : List Nat} {gh : Nat} {gr : List Nat}
    (hvb : ∀ c ∈ v, valueByte c = true) (hterm : termByte gh = false)
    (hsp : isspaceB gh = false) :
    parseValueGo (m + 1) [] (v ++ 13 :: 10 :: gh :: gr) = some (v, gh :: gr) := by
  simp only [parseValueGo]
  rw [takeWhile_append_all hvb,
    takeWhile_cons_neg (show valueByte 13 = false from by decide), List.append_nil,
    dropWhile_append_all hvb,
    dropWhile_cons_neg (show valueByte 13 = false from by decide),
    takeWhile_cons_pos (show termByte 13 = true from by decide),
    takeWhile_cons_pos (show termByte 10 = true from by decide),
    takeWhile_cons_neg hterm,
    dropWhile_cons_pos (show termByte 13 = true from by decide),
    dropWhile_cons_pos (show termByte 10 = true from by decide),
    dropWhile_cons_neg hterm]
  simp [foldScan_cons_neg hsp]

/-- One iteration of the outer add_fields loop over a serialised field
"name: value" followed by tail: the loop scans exactly the name, consumes
the colon and the single space, and hands value-plus-tail to
parseValueGo. -/
theorem addFieldsGo_step {addf : List HField → List Nat → List Nat → List HField}
    {cap cnt fuel : Nat} {pre : List HField} {nh : Nat} {nt : List Nat} {vh : Nat}
    {vt tail : List Nat}
    (hnsp : isspaceB nh = false) (hnb : ∀ c ∈ nh :: nt, nameByte c = true)
    (hneof : nh ≠ eofByte) (hcnt : cnt < cap) (hvsp : isspaceB vh = false) :
    addFieldsGo addf cap (fuel + 1) pre cnt
        ((nh :: nt) ++ 58 :: 32 :: ((vh :: vt) ++ tail)) =
      (match parseValueGo (((vh :: vt) ++ tail).length + 1) [] ((vh :: vt) ++ tail) with
       | none => pre
       | some (value, r6) =>
          addFieldsGo addf cap fuel (addf pre (nh :: nt) value) (cnt + 1) r6) := by
  have hguard : ¬(((nh :: nt) ++ 58 :: 32 :: ((vh :: vt) ++ tail)).isEmpty = true ∨
      ((nh :: nt) ++ 58 :: 32 :: ((vh :: vt) ++ tail)).headD 0 = eofByte ∨ ¬ cnt < cap) := by
    push_neg
    refine ⟨by simp, by simpa using hneof, hcnt⟩
  simp only [addFieldsGo]
  rw [if_neg hguard, dropWhile_append_cons_neg hnsp, takeWhile_append_all hnb,
    takeWhile_cons_neg (show nameByte 58 = false from by decide), List.append_nil,
    dropWhile_append_all hnb,
    dropWhile_cons_neg (show nameByte 58 = false from by decide),
    dropWhile_cons_neg (show isspaceB 58 = false from by decide)]
  simp only [List.headD_cons, if_pos, List.tail_cons]
  rw [dropWhile_cons_pos (show isspaceB 32 = true from by decide),
    dropWhile_append_cons_neg hvsp]

/-- serializeFields on an explicit pair at the head. -/
theorem serializeFields_pair_cons (n v : List Nat) (fs : List HField) :
    Inc.serializeFields ((n, v) :: fs) =
      n ++ 58 :: 32 :: (v ++ 13 :: 10 :: Inc.serializeFields fs) := by
  simp [Inc.serializeFields, List.foldr_cons]

/-- The serialised form of a good field list parses back to exactly that
list, appended to whatever was already stored, for any sufficient fuel
and any capacity with enough room. -/
theorem addFieldsGo_serialize (cap : Nat) (fs : List HField) :
    ∀ (pre : List HField) (cnt fuel : Nat),
      (∀ f ∈ fs, goodField f) → pre.length = cnt → cnt + fs.length ≤ cap →
      fs.length ≤ fuel →
      addFieldsGo (fun l n v => ((Inc.add_field ⟨l, cap⟩ n v).2).fields) cap (fuel + 1)
        pre cnt (Inc.serializeFields fs) = pre ++ fs := by
  induction fs with
  | nil =>
    intro pre cnt fuel _ _ _ _
    by_cases hc : cnt < cap
    · simp [Inc.serializeFields, addFieldsGo, hc, eofByte,
        dropWhile_cons_pos (show isspaceB 13 = true from by decide),
        dropWhile_cons_pos (show isspaceB 10 = true from by decide)]
    · simp [Inc.serializeFields, addFieldsGo, hc]
  | cons f fsr ih =>
    intro pre cnt fuel hgood hpre hle hfuel
    obtain ⟨n, v⟩ := f
    have hgf : goodField (n, v) := hgood (n, v) (by simp)
    obtain ⟨hn0, hv0, hnb, hvb⟩ := hgf
    have hcnt : cnt < cap := by
      simp only [List.length_cons] at hle
      omega
    have hplen : pre.length < cap := hpre ▸ hcnt
    obtain ⟨nh, nt, rfl⟩ : ∃ nh nt, n = nh :: nt := by
      cases n with
      | nil => exact absurd rfl hn0
      | cons a b => exact ⟨a, b, rfl⟩
    obtain ⟨vh, vt, rfl⟩ : ∃ vh vt, v = vh :: vt := by
      cases v with
      | nil => exact absurd rfl hv0
      | cons a b => exact ⟨a, b, rfl⟩
    have hnb' : ∀ c ∈ nh :: nt, nameByte c = true := fun c hc => goodByte_name (hnb c hc)
    have hvb' : ∀ c ∈ vh :: vt, valueByte c = true := fun c hc => goodByte_value (hvb c hc)
    have hnsp : isspaceB nh = false := goodByte_not_space (hnb nh (by simp))
    have hvsp : isspaceB vh = false := goodByte_not_space (hvb vh (by simp))
    have hneof : nh ≠ eofByte := goodByte_ne_eof (hnb nh (by simp))
    have hadd : ((Inc.add_field ⟨pre, cap⟩ (nh :: nt) (vh :: vt)).2).fields
        = pre ++ [(nh :: nt, vh :: vt)] := by
      simp [Inc.add_field, hplen]
    rw [serializeFields_pair_cons]
    cases fsr with
    | nil =>
      rw [addFieldsGo_step hnsp hnb' hneof hcnt hvsp,
        show Inc.serializeFields ([] : List HField) = ([13, 10] : List Nat) from rfl,
        parseValueGo_last hvb']
      simp only [hadd, addFieldsGo_nil]
    | cons g gs =>
      obtain ⟨g1, g2⟩ := g
      have hgg : goodField (g1, g2) := hgood (g1, g2) (by simp)
      obtain ⟨hg0, _, hgb, _⟩ := hgg
      obtain ⟨gh, gt, rfl⟩ : ∃ gh gt, g1 = gh :: gt := by
        cases g1 with
        | nil => exact absurd rfl hg0
        | cons a b => exact ⟨a, b, rfl⟩
      have hgterm : termByte gh = false := goodByte_not_term (hgb gh (by simp))
      have hgsp : isspaceB gh = false := goodByte_not_space (hgb gh (by simp))
      have htail : ((gh :: gt) ++ 58 :: 32 :: (g2 ++ 13 :: 10 :: Inc.serializeFields gs)
            : List Nat)
          = gh :: (gt ++ 58 :: 32 :: (g2 ++ 13 :: 10 :: Inc.serializeFields gs)) := rfl
      rw [addFieldsGo_step hnsp hnb' hneof hcnt hvsp, serializeFields_pair_cons, htail,
        parseValueGo_mid hvb' hgterm hgsp]
      simp only [hadd]
      rw [← htail, ← serializeFields_pair_cons]
      obtain ⟨k, rfl⟩ : ∃ k, fuel = k + 1 := by
        simp only [List.length_cons] at hfuel
        exact ⟨fuel - 1, by omega⟩
      rw [ih (pre ++ [(nh :: nt, vh :: vt)]) (cnt + 1) k
        (fun f hf => hgood f (by simp [hf]))
        (by simp [hpre])
        (by simp only [List.length_cons] at hle ⊢; omega)
        (by simp only [List.length_cons] at hfuel ⊢; omega)]
      simp

/-- Each serialised field contributes at least one byte. -/
theorem serializeFields_length_ge (fs : List HField) :
    fs.length ≤ (Inc.serializeFields fs).length := by
  induction fs with
  | nil => simp [Inc.serializeFields]
  | cons f fsr ih =>
    rw [serializeFields_cons]
    simp only [List.length_append, List.length_cons]
    omega

/-- Claim C1, amended: for every header collection whose fields all have
non-empty names and values containing no CR, LF, colon, control or
whitespace bytes AND no 0xFF byte (which the parser reads back as EOF
through the target's signed char, see the counterexample), and whose
size does not exceed the capacity, serialising with to_string and
bulk-parsing the output into a fresh collection of the same capacity
reproduces exactly the same ordered field sequence. -/
theorem c1_roundtrip_amended (cap : Nat) (fs : List HField)
    (hgood : ∀ f ∈ fs, goodField f) (hlen : fs.length ≤ cap) :
    Inc.add_fields ⟨[], cap⟩ (Inc.to_string ⟨fs, cap⟩) = ⟨fs, cap⟩ := by
  have hser : fs.length ≤ (Inc.serializeFields fs).length := serializeFields_length_ge fs
  have hmain := addFieldsGo_serialize cap fs [] 0 (Inc.serializeFields fs).length hgood rfl
    (by omega) hser
  simp only [Inc.add_fields, Inc.to_string]
  rw [hmain]
  simp

instance goodField_decidable : DecidablePred goodField := fun f => by
  unfold goodField
  infer_instance

/-- Claim C1, amended, witness: a concrete two-field collection
round-trips through the theorem. -/
theorem c1_roundtrip_amended_witness :
    Inc.add_fields ⟨[], 25⟩
        (Inc.to_string ⟨[(bytes "Host", bytes "h"), (bytes "Aa", bytes "Bb")], 25⟩)
      = ⟨[(bytes "Host", bytes "h"), (bytes "Aa", bytes "Bb")], 25⟩ :=
  c1_roundtrip_amended 25 [(bytes "Host", bytes "h"), (bytes "Aa", bytes "Bb")]
    (by decide) (by decide)
